import Mathlib

/-!
Verification of the wifi-mesh audio relay firmware (Hub `src/main.cpp` and
Relay `esp32_b_project/src/main.cpp`) against its natural-language
specification.  Every definition below is a shallow embedding of the
corresponding C++ function; machine integers are modelled as `Nat`/`Int`
with explicit bounds where overflow matters, and byte buffers as `List Nat`
(each element a byte value 0..255).
-/

set_option autoImplicit false

namespace WifiMesh

/-! ## RingQueue: the lock-free single-producer/single-consumer ring queues

The Hub owns a 16-slot queue (`bleInQueue` with `bleInPushFromISR` /
`bleInPop`) and the Relay owns a 64-slot queue (`notifyQueue` with
`notifyQueuePushFromISR` / `notifyQueuePop`).  Both use the same index
protocol: `nextHead = (head + 1) & (size - 1)`, full when `nextHead == tail`,
empty when `tail == head`.  For a power-of-two `size` the bitmask
`& (size - 1)` is exactly `% size`, which is how it is written here.
The slot array is modelled as a total function from indices to items. -/

structure RingQueue (α : Type) where
  size : Nat
  head : Nat
  tail : Nat
  slots : Nat → α

/-- Model of `bleInPushFromISR` / `notifyQueuePushFromISR` (minus the
byte-copy details): compute `nextHead`, fail if the queue is full,
otherwise write the slot at `head` and publish the new head index. -/
def RingQueue.tryPush {α : Type} (q : RingQueue α) (x : α) : Bool × RingQueue α :=
  let nextHead := (q.head + 1) % q.size
  if nextHead = q.tail then (false, q)
  else (true, { q with head := nextHead,
                       slots := fun i => if i = q.head % q.size then x else q.slots i })

/-- Model of `bleInPop` / `notifyQueuePop`: fail if the queue is empty,
otherwise read the slot at `tail` and advance the tail index. -/
def RingQueue.tryPop {α : Type} (q : RingQueue α) : Option α × RingQueue α :=
  if q.tail = q.head then (none, q)
  else (some (q.slots (q.tail % q.size)), { q with tail := (q.tail + 1) % q.size })

/-- The initial queue state: `head = tail = 0`, slot contents arbitrary
(filled with a default item). -/
def RingQueue.empty (α : Type) (size : Nat) (d : α) : RingQueue α :=
  ⟨size, 0, 0, fun _ => d⟩

/-- Push a whole list of items in order, collecting each push's Bool result. -/
def pushAllResults {α : Type} (q : RingQueue α) : List α → List Bool × RingQueue α
  | [] => ([], q)
  | x :: xs =>
    let r := q.tryPush x
    let rest := pushAllResults r.2 xs
    (r.1 :: rest.1, rest.2)

/-- The queue state after pushing a whole list of items in order. -/
def pushAll {α : Type} (q : RingQueue α) (xs : List α) : RingQueue α :=
  (pushAllResults q xs).2

/-- Perform up to `n` pops, collecting the successfully popped items in order. -/
def popN {α : Type} (q : RingQueue α) : Nat → List α × RingQueue α
  | 0 => ([], q)
  | n + 1 =>
    match q.tryPop with
    | (none, q') => ([], q')
    | (some x, q') =>
      let r := popN q' n
      (x :: r.1, r.2)

/-- Hub instance: `bleInPushFromISR` truncates the incoming BLE write to the
256-byte slot size before storing it (16-slot queue). -/
def bleInPushFromISR (q : RingQueue (List Nat)) (buf : List Nat) :
    Bool × RingQueue (List Nat) :=
  q.tryPush (buf.take 256)

/-- Relay slot type: payload bytes plus the `isPcm8` tag
(1 if the payload is 8-bit PCM to be upsampled). -/
structure NotifyItem where
  data : List Nat
  isPcm8 : Bool
  deriving DecidableEq

/-- Relay instance: `notifyQueuePushFromISR` truncates the payload to 256
bytes before storing it together with its `isPcm8` tag (64-slot queue). -/
def notifyQueuePushFromISR (q : RingQueue NotifyItem) (buf : List Nat) (isPcm8 : Bool) :
    Bool × RingQueue NotifyItem :=
  q.tryPush ⟨buf.take 256, isPcm8⟩

lemma pushAllResults_spec {α : Type} (d : α) (size : Nat) :
    ∀ (xs : List α) (k : Nat) (slots : Nat → α), k + xs.length + 1 ≤ size →
    pushAllResults ⟨size, k, 0, slots⟩ xs =
      (List.replicate xs.length true,
       ⟨size, k + xs.length, 0,
        fun i => if k ≤ i ∧ i < k + xs.length then xs.getD (i - k) d else slots i⟩) := by
  intro xs
  induction xs with
  | nil =>
    intro k slots _
    simp only [pushAllResults, List.length_nil, List.replicate, Prod.mk.injEq,
      RingQueue.mk.injEq, Nat.add_zero, true_and]
    funext i
    have h : ¬ (k ≤ i ∧ i < k) := by omega
    simp [h]
  | cons x xs ih =>
    intro k slots hk
    have hksize : k < size := by simp at hk; omega
    have hk1 : k + 1 + xs.length + 1 ≤ size := by simp at hk ⊢; omega
    have hmod : (k + 1) % size = k + 1 := by
      apply Nat.mod_eq_of_lt; simp at hk; omega
    have hkmod : k % size = k := Nat.mod_eq_of_lt hksize
    simp only [pushAllResults, RingQueue.tryPush, hmod, hkmod]
    have hne : k + 1 ≠ 0 := by omega
    rw [if_neg hne]
    dsimp only
    rw [ih (k + 1) _ hk1]
    apply congrArg₂ Prod.mk
    · rfl
    · have hhead : k + 1 + xs.length = k + (xs.length + 1) := by omega
      dsimp only
      simp only [List.length_cons]
      rw [hhead]
      apply congrArg
      funext i
      by_cases hik : i = k
      · subst hik
        have h1 : ¬ (i + 1 ≤ i ∧ i < i + (xs.length + 1)) := by omega
        have h2 : i ≤ i ∧ i < i + (xs.length + 1) := by omega
        rw [if_neg h1, if_pos rfl, if_pos h2]
        simp
      · by_cases hI : k + 1 ≤ i ∧ i < k + (xs.length + 1)
        · have h2 : k ≤ i ∧ i < k + (xs.length + 1) := by omega
          rw [if_pos hI, if_pos h2]
          have h3 : i - k = (i - (k + 1)) + 1 := by omega
          rw [h3, List.getD_cons_succ]
        · have h2 : ¬ (k ≤ i ∧ i < k + (xs.length + 1)) := by omega
          rw [if_neg hI, if_neg hik, if_neg h2]

lemma popN_spec {α : Type} (d : α) (size : Nat) (xs : List α)
    (hlen : xs.length + 1 ≤ size) (slots : Nat → α)
    (hslots : ∀ i, i < xs.length → slots i = xs.getD i d) :
    ∀ (M t : Nat), t ≤ xs.length →
    (popN ⟨size, xs.length, t, slots⟩ M).1 = (xs.drop t).take M := by
  intro M
  induction M with
  | zero => intro t _; simp [popN]
  | succ M ih =>
    intro t ht
    by_cases hte : t = xs.length
    · subst hte
      simp [popN, RingQueue.tryPop]
    · have htlt : t < xs.length := by omega
      have hmod : t % size = t := Nat.mod_eq_of_lt (by omega)
      have hmod1 : (t + 1) % size = t + 1 := Nat.mod_eq_of_lt (by omega)
      simp only [popN, RingQueue.tryPop, hmod, hmod1]
      rw [if_neg hte]
      dsimp only
      rw [ih (t + 1) (by omega)]
      rw [hslots t htlt]
      rw [List.getD_eq_getElem _ _ htlt]
      rw [List.drop_eq_getElem_cons htlt, List.take_succ_cons]

/-- The claim's universally quantified FIFO statement fails at the queues'
nominal capacity: the index protocol (`full` when `nextHead == tail`)
keeps one slot unusable, so the 16-slot Hub queue stores at most 15 items.
Pushing 16 items from empty, the 16th push returns `false`, and 16 pops
return only the first 15 items, not the first `min(16, 16) = 16`. -/
theorem ringQueue_sixteen_pushes_counterexample :
    (pushAllResults (RingQueue.empty Nat 16 0) (List.range 16)).1 =
      List.replicate 15 true ++ [false] ∧
    (popN (pushAll (RingQueue.empty Nat 16 0) (List.range 16)) 16).1 =
      List.range 15 ∧
    (popN (pushAll (RingQueue.empty Nat 16 0) (List.range 16)) 16).1 ≠
      (List.range 16).take (min 16 16) := by
  refine ⟨by decide, by decide, by decide⟩

/-- Amended C1: the effective capacity of a size-`s` ring queue is `s - 1`
(15 items for the Hub's 16-slot BLE-in queue, 63 for the Relay's 64-slot
notify queue).  Starting from empty, pushing `N ≤ s - 1` items succeeds for
every push, and `M` subsequent pops return exactly the first `min(N, M)`
pushed items in FIFO order; a push attempted while the queue holds `s - 1`
items returns `false` and leaves the stored contents and indices unchanged;
a pop attempted while the queue is empty returns `false` and changes
nothing. -/
theorem ringQueue_fifo_amended {α : Type} (d : α) (size : Nat) (hs : 2 ≤ size)
    (xs : List α) (hlen : xs.length + 1 ≤ size) (M : Nat) :
    (pushAllResults (RingQueue.empty α size d) xs).1 = List.replicate xs.length true ∧
    (popN (pushAll (RingQueue.empty α size d) xs) M).1 = xs.take M ∧
    (xs.length + 1 = size → ∀ y,
      (pushAll (RingQueue.empty α size d) xs).tryPush y =
        (false, pushAll (RingQueue.empty α size d) xs)) ∧
    (RingQueue.empty α size d).tryPop = (none, RingQueue.empty α size d) := by
  have hspec := pushAllResults_spec d size xs 0 (fun _ => d) (by omega)
  have hpush : pushAll (RingQueue.empty α size d) xs =
      ⟨size, xs.length, 0,
       fun i => if 0 ≤ i ∧ i < xs.length then xs.getD i d else d⟩ := by
    unfold pushAll RingQueue.empty
    rw [hspec]
    dsimp only
    simp only [Nat.zero_add, Nat.sub_zero]
  refine ⟨?_, ?_, ?_, ?_⟩
  · unfold RingQueue.empty
    rw [hspec]
  · rw [hpush]
    have := popN_spec d size xs hlen
      (fun i => if 0 ≤ i ∧ i < xs.length then xs.getD i d else d)
      (fun i hi => by simp [hi]) M 0 (by omega)
    simpa using this
  · intro hfull y
    rw [hpush]
    simp only [RingQueue.tryPush]
    have h1 : (xs.length + 1) % size = 0 := by rw [hfull]; exact Nat.mod_self size
    rw [if_pos h1]
  · simp [RingQueue.tryPop, RingQueue.empty]

/-- Concrete instantiation of the amended FIFO theorem on the 16-slot queue:
pushing 3 items then popping 2 returns the first 2 items in order. -/
theorem ringQueue_fifo_amended_witness :
    (2 ≤ 16 ∧ [7, 8, 9].length + 1 ≤ 16) ∧
    ((pushAllResults (RingQueue.empty Nat 16 0) [7, 8, 9]).1 = List.replicate 3 true ∧
     (popN (pushAll (RingQueue.empty Nat 16 0) [7, 8, 9]) 2).1 = [7, 8] ∧
     (RingQueue.empty Nat 16 0).tryPop = (none, RingQueue.empty Nat 16 0)) := by
  have h := ringQueue_fifo_amended (α := Nat) 0 16 (by decide) [7, 8, 9] (by decide) 2
  exact ⟨⟨by decide, by decide⟩, h.1, h.2.1.trans (by decide), h.2.2.2⟩

/-! ## FrameCodec: the compact text audio frame

The Hub builds each chunk message in `sendAudioChunks` with
`snprintf("P:%d:%d:%d:%d:%d:%d:%d:%d", ...)` followed by one `':'` byte and
the raw payload.  The Relay decodes with `parseCompactAudioHeader`.
Bytes are `Nat` values; `58` is `':'`, `80` is `'P'`, `48`..`57` are the
ASCII digits. -/

/-- Decimal ASCII digits of `n`, most significant first, with explicit fuel
(the fuel `n + 1` always suffices, see `digitCharsAux_parse`).  Models what
`snprintf` with `%d` prints for a non-negative value. -/
def digitCharsAux : Nat → Nat → List Nat
  | 0, _ => []
  | fuel + 1, n => if n < 10 then [n + 48] else digitCharsAux fuel (n / 10) ++ [n % 10 + 48]

/-- Decimal ASCII digits of `n`, most significant first. -/
def digitChars (n : Nat) : List Nat :=
  digitCharsAux (n + 1) n

/-- The colon-separated field block `d1 ":" d2 ":" ... ":" dm` of the
`snprintf` format string, one decimal render per field. -/
def fieldsBytes : List Nat → List Nat
  | [] => []
  | [v] => digitChars v
  | v :: rest => digitChars v ++ 58 :: fieldsBytes rest

/-- Model of the encoder output for one chunk: `"P:"`, the eight
colon-separated decimal fields, one more `':'`, then the raw payload
(this is `sendAudioChunks`' `messageBuffer` when the payload fits the
300-byte scratch buffer, which `sendChunk_frame_bounded` shows it does). -/
def encodeCompactFrame (fields : List Nat) (payload : List Nat) : List Nat :=
  80 :: 58 :: (fieldsBytes fields ++ 58 :: payload)

/-- Model of the field-parsing loop of `parseCompactAudioHeader`: consume
bytes, accumulating the `current` decimal value, closing a field at each
`':'`; stop successfully right after the 8th field closes, returning the
collected values and the remaining bytes; fail on any byte that is neither
a digit nor `':'`, or if the input ends before 8 fields close. -/
def parseFields : List Nat → Nat → List Nat → Option (List Nat × List Nat)
  | [], _, _ => none
  | b :: rest, current, vals =>
    if b = 58 then
      if vals.length + 1 = 8 then some (vals ++ [current], rest)
      else parseFields rest 0 (vals ++ [current])
    else if 48 ≤ b ∧ b ≤ 57 then parseFields rest (current * 10 + (b - 48)) vals
    else none

/-- Model of the Relay's `parseCompactAudioHeader`: require length ≥ 5 and
the `"P:"` prefix, run the field loop, and require a non-empty remainder
(`dataStart < len`), which becomes the raw payload. -/
def parseCompactAudioHeader (msg : List Nat) : Option (List Nat × List Nat) :=
  if msg.length < 5 then none
  else
    match msg with
    | b0 :: b1 :: rest =>
      if b0 = 80 ∧ b1 = 58 then
        match parseFields rest 0 [] with
        | some r => if r.2 = [] then none else some r
        | none => none
      else none
    | _ => none

lemma digitCharsAux_parse :
    ∀ (fuel n : Nat), n < 10 ^ fuel → ∀ (rest vals : List Nat),
    parseFields (digitCharsAux fuel n ++ rest) 0 vals = parseFields rest n vals := by
  intro fuel
  induction fuel with
  | zero =>
    intro n hn rest vals
    have : n = 0 := by omega
    subst this
    simp [digitCharsAux]
  | succ fuel ih =>
    intro n hn rest vals
    by_cases h10 : n < 10
    · simp only [digitCharsAux, if_pos h10, List.cons_append, List.nil_append]
      have hne : ¬ (n + 48 = 58) := by omega
      have hdig : 48 ≤ n + 48 ∧ n + 48 ≤ 57 := by omega
      simp only [parseFields, if_neg hne, if_pos hdig]
      have : n + 48 - 48 = n := by omega
      rw [this]
      simp
    · simp only [digitCharsAux, if_neg h10, List.append_assoc, List.cons_append,
        List.nil_append]
      have hdiv : n / 10 < 10 ^ fuel := by
        rw [Nat.div_lt_iff_lt_mul (by norm_num)]
        calc n < 10 ^ (fuel + 1) := hn
        _ = 10 ^ fuel * 10 := by ring
      rw [ih (n / 10) hdiv]
      have hne : ¬ (n % 10 + 48 = 58) := by omega
      have hdig : 48 ≤ n % 10 + 48 ∧ n % 10 + 48 ≤ 57 := by
        have := Nat.mod_lt n (y := 10) (by norm_num)
        omega
      simp only [parseFields, if_neg hne, if_pos hdig]
      have : n % 10 + 48 - 48 = n % 10 := by omega
      rw [this]
      have : n / 10 * 10 + n % 10 = n := by
        rw [Nat.mul_comm]
        exact Nat.div_add_mod n 10
      rw [this]

lemma digitChars_parse (n : Nat) (rest vals : List Nat) :
    parseFields (digitChars n ++ rest) 0 vals = parseFields rest n vals := by
  unfold digitChars
  exact digitCharsAux_parse (n + 1) n
    (lt_of_lt_of_le (Nat.lt_pow_self (by norm_num) n) (Nat.pow_le_pow_right (by norm_num) (by omega)))
    rest vals

lemma digitCharsAux_ne_nil (fuel n : Nat) (h : 1 ≤ fuel) : digitCharsAux fuel n ≠ [] := by
  cases fuel with
  | zero => omega
  | succ fuel =>
    by_cases h10 : n < 10 <;> simp [digitCharsAux, h10]

lemma digitChars_ne_nil (n : Nat) : digitChars n ≠ [] :=
  digitCharsAux_ne_nil (n + 1) n (by omega)

lemma parseFields_fieldsBytes (payload : List Nat) :
    ∀ (fs done : List Nat), done.length + fs.length = 8 → fs ≠ [] →
    parseFields (fieldsBytes fs ++ 58 :: payload) 0 done = some (done ++ fs, payload) := by
  intro fs
  induction fs with
  | nil => intro done _ hne; exact absurd rfl hne
  | cons v rest ih =>
    intro done hlen _
    cases rest with
    | nil =>
      simp only [fieldsBytes]
      rw [digitChars_parse]
      have h7 : done.length + 1 = 8 := by simpa using hlen
      simp [parseFields, h7]
    | cons w rest' =>
      have hstep : fieldsBytes (v :: w :: rest') = digitChars v ++ 58 :: fieldsBytes (w :: rest') := rfl
      rw [hstep, List.append_assoc, List.cons_append]
      rw [digitChars_parse]
      have hne8 : ¬ (done.length + 1 = 8) := by
        simp only [List.length_cons] at hlen
        omega
      simp only [parseFields, if_pos rfl, if_neg hne8]
      rw [ih (done ++ [v]) (by simp at hlen ⊢; omega) (by simp)]
      simp

/-- C2: round-trip of the compact text frame.  For every list of 8
(non-negative) header field values and every non-empty payload of arbitrary
bytes, encoding as `"P:"` + the 8 colon-delimited decimal fields + `':'` +
raw payload and then decoding with `parseCompactAudioHeader` succeeds and
returns exactly the 8 field values and a byte-identical payload — even when
the payload contains `0x3A` (`':'`) or `0x50` (`'P'`) bytes, since the
parser never inspects bytes after the 8th field closes. -/
theorem compactFrame_roundtrip (fields payload : List Nat)
    (h8 : fields.length = 8) (hp : payload ≠ []) :
    parseCompactAudioHeader (encodeCompactFrame fields payload) = some (fields, payload) := by
  have hfe : fields ≠ [] := by intro h; rw [h] at h8; simp at h8
  have hlen : ¬ (encodeCompactFrame fields payload).length < 5 := by
    have h1 : 1 ≤ (fieldsBytes fields).length := by
      cases fields with
      | nil => exact absurd rfl hfe
      | cons v rest =>
        cases rest with
        | nil =>
          simpa [fieldsBytes] using
            List.length_pos.mpr (digitChars_ne_nil v)
        | cons w rest' =>
          have : (fieldsBytes (v :: w :: rest')) = digitChars v ++ 58 :: fieldsBytes (w :: rest') := rfl
          rw [this]
          simp only [List.length_append, List.length_cons]
          omega
    have h2 : 1 ≤ payload.length := List.length_pos.mpr hp
    simp only [encodeCompactFrame, List.length_cons, List.length_append]
    omega
  unfold parseCompactAudioHeader encodeCompactFrame
  rw [if_neg (by simpa [encodeCompactFrame] using hlen)]
  dsimp only
  rw [if_pos (⟨rfl, rfl⟩ : (80 : Nat) = 80 ∧ (58 : Nat) = 58)]
  rw [parseFields_fieldsBytes payload fields [] (by simpa using h8) hfe]
  simp [hp]

/-- Concrete round-trip instance: 8 fields and a payload containing the
bytes `0x3A` (`':'`) and `0x50` (`'P'`). -/
theorem compactFrame_roundtrip_witness :
    ([3, 1, 4, 159, 26535, 0, 128, 65535] : List Nat).length = 8 ∧
    ([58, 80, 0, 255, 58] : List Nat) ≠ [] ∧
    parseCompactAudioHeader
      (encodeCompactFrame [3, 1, 4, 159, 26535, 0, 128, 65535] [58, 80, 0, 255, 58]) =
      some ([3, 1, 4, 159, 26535, 0, 128, 65535], [58, 80, 0, 255, 58]) :=
  ⟨by decide, by decide,
   compactFrame_roundtrip [3, 1, 4, 159, 26535, 0, 128, 65535] [58, 80, 0, 255, 58]
     (by decide) (by decide)⟩

/-! ## Frame assembly in `sendAudioChunks` (transport ceiling, C3)

`sendAudioChunks` builds the header with `snprintf` into a 300-byte
`messageBuffer`, appends `':'` plus the 200-byte raw chunk if it fits the
scratch buffer, and then — if the total exceeds the 250-byte ESP-NOW limit —
recomputes `maxAudioData = 250 - messageLen + rawSize`, truncates the
payload to that many bytes (header untouched), and still sends; only when
`maxAudioData ≤ 0` (header alone ≥ 249 bytes, unreachable for `%d`-printed
fields) is the chunk skipped. -/

/-- The snprintf-built header `"P:seq:chunk:total:time:rate:bits:min:max"`. -/
def chunkHeader (seq chunk total timeMs rate bits minV maxV : Nat) : List Nat :=
  80 :: 58 :: fieldsBytes [seq, chunk, total, timeMs, rate, bits, minV, maxV]

/-- Model of the `messageBuffer` assembly and ESP-NOW size capping in
`sendAudioChunks`: `none` means the chunk is skipped (`continue`), `some f`
means frame `f` is sent. -/
def buildChunkFrame (header : List Nat) (payload : List Nat) : Option (List Nat) :=
  let msg := if header.length + payload.length + 1 < 300 then header ++ 58 :: payload else header
  if 250 < msg.length then
    let maxAudioData : Int := 250 - (msg.length : Int) + payload.length
    if 0 < maxAudioData then
      some (msg.take (msg.length - payload.length) ++ payload.take maxAudioData.toNat)
    else none
  else some msg

lemma digitCharsAux_length_le :
    ∀ (fuel n k : Nat), n < 10 ^ k → 1 ≤ k → (digitCharsAux fuel n).length ≤ k := by
  intro fuel
  induction fuel with
  | zero => intro n k _ _; simp [digitCharsAux]
  | succ fuel ih =>
    intro n k hn hk
    by_cases h10 : n < 10
    · simp [digitCharsAux, h10]
      omega
    · have hk2 : 2 ≤ k := by
        by_contra h
        have hk1 : k = 1 := by omega
        rw [hk1] at hn
        simp at hn
        omega
      have hdiv : n / 10 < 10 ^ (k - 1) := by
        rw [Nat.div_lt_iff_lt_mul (by norm_num)]
        calc n < 10 ^ k := hn
        _ = 10 ^ (k - 1) * 10 := by
            rw [← Nat.pow_succ]
            congr 1
            omega
      simp only [digitCharsAux, if_neg h10, List.length_append, List.length_cons,
        List.length_nil]
      have := ih (n / 10) (k - 1) hdiv (by omega)
      omega

lemma digitChars_length_le (n k : Nat) (hn : n < 10 ^ k) (hk : 1 ≤ k) :
    (digitChars n).length ≤ k :=
  digitCharsAux_length_le (n + 1) n k hn hk

lemma chunkHeader_length_le (seq chunk total timeMs rate bits minV maxV : Nat)
    (hb : ∀ v ∈ [seq, chunk, total, timeMs, rate, bits, minV, maxV], v < 4294967296) :
    (chunkHeader seq chunk total timeMs rate bits minV maxV).length ≤ 89 := by
  have hten : (4294967296 : Nat) ≤ 10 ^ 10 := by norm_num
  have hd : ∀ v ∈ [seq, chunk, total, timeMs, rate, bits, minV, maxV],
      (digitChars v).length ≤ 10 := by
    intro v hv
    exact digitChars_length_le v 10 (lt_of_lt_of_le (hb v hv) hten) (by omega)
  have h1 := hd seq (by simp)
  have h2 := hd chunk (by simp)
  have h3 := hd total (by simp)
  have h4 := hd timeMs (by simp)
  have h5 := hd rate (by simp)
  have h6 := hd bits (by simp)
  have h7 := hd minV (by simp)
  have h8 := hd maxV (by simp)
  simp only [chunkHeader, fieldsBytes, List.length_cons, List.length_append]
  omega

/-- C3: every frame the Hub's chunk sender emits is at most 250 bytes.
For all header field values that fit an unsigned 32-bit integer (the C
fields are `int` / `unsigned long`) and the fixed 200-byte chunk payload,
`buildChunkFrame` always returns `some` frame (never drops the chunk); the
frame is the header, a `':'`, and a (possibly truncated) prefix of the
payload; when header + `':'` + payload already fit in 250 bytes the payload
is sent whole, and otherwise it is truncated so the frame is exactly 250
bytes while the header bytes are unchanged. -/
theorem sendChunk_frame_bounded (seq chunk total timeMs rate bits minV maxV : Nat)
    (hb : ∀ v ∈ [seq, chunk, total, timeMs, rate, bits, minV, maxV], v < 4294967296)
    (payload : List Nat) (hp : payload.length = 200) :
    buildChunkFrame (chunkHeader seq chunk total timeMs rate bits minV maxV) payload =
      some (chunkHeader seq chunk total timeMs rate bits minV maxV ++
        58 :: payload.take (min 200 (249 - (chunkHeader seq chunk total timeMs rate bits minV maxV).length))) ∧
    ∀ f, buildChunkFrame (chunkHeader seq chunk total timeMs rate bits minV maxV) payload = some f →
      f.length ≤ 250 ∧
      ((chunkHeader seq chunk total timeMs rate bits minV maxV).length + 201 ≤ 250 →
        f = chunkHeader seq chunk total timeMs rate bits minV maxV ++ 58 :: payload) := by
  set header := chunkHeader seq chunk total timeMs rate bits minV maxV with hheader
  have hhl : header.length ≤ 89 := chunkHeader_length_le _ _ _ _ _ _ _ _ hb
  have hfit : header.length + payload.length + 1 < 300 := by omega
  have hmsg : (if header.length + payload.length + 1 < 300 then header ++ 58 :: payload else header)
      = header ++ 58 :: payload := if_pos hfit
  have hmsglen : (header ++ 58 :: payload).length = header.length + 201 := by
    simp [hp]
  constructor
  · unfold buildChunkFrame
    rw [hmsg]
    dsimp only
    rw [hmsglen]
    by_cases hover : 250 < header.length + 201
    · rw [if_pos hover]
      have hpos : (0 : Int) < 250 - ((header.length + 201 : Nat) : Int) + payload.length := by
        have : ((header.length + 201 : Nat) : Int) = (header.length : Int) + 201 := by push_cast; ring
        rw [this, hp]
        push_cast
        omega
      rw [if_pos hpos]
      have htonat : (250 - ((header.length + 201 : Nat) : Int) + (payload.length : Int)).toNat
          = 249 - header.length := by
        rw [hp]
        push_cast
        omega
      rw [htonat]
      have htake : (header ++ 58 :: payload).take (header.length + 201 - payload.length)
          = header ++ [58] := by
        rw [hp]
        have : header.length + 201 - 200 = header.length + 1 := by omega
        rw [this]
        rw [List.take_append]
        simp
      rw [htake]
      have hmin : min 200 (249 - header.length) = 249 - header.length := by omega
      rw [hmin]
      simp
    · rw [if_neg hover]
      have hmin : min 200 (249 - header.length) = 200 := by omega
      rw [hmin]
      have : payload.take 200 = payload := by
        rw [← hp]
        exact List.take_length payload
      rw [this]
  · intro f hf
    unfold buildChunkFrame at hf
    rw [hmsg] at hf
    dsimp only at hf
    rw [hmsglen] at hf
    by_cases hover : 250 < header.length + 201
    · rw [if_pos hover] at hf
      have hpos : (0 : Int) < 250 - ((header.length + 201 : Nat) : Int) + payload.length := by
        rw [hp]
        push_cast
        omega
      rw [if_pos hpos] at hf
      have htonat : (250 - ((header.length + 201 : Nat) : Int) + (payload.length : Int)).toNat
          = 249 - header.length := by
        rw [hp]
        push_cast
        omega
      rw [htonat] at hf
      have htake : (header ++ 58 :: payload).take (header.length + 201 - payload.length)
          = header ++ [58] := by
        rw [hp]
        have : header.length + 201 - 200 = header.length + 1 := by omega
        rw [this]
        rw [List.take_append]
        simp
      rw [htake] at hf
      have hfe : header ++ [58] ++ payload.take (249 - header.length) = f :=
        Option.some.inj hf
      have hflen : f.length = 250 := by
        rw [← hfe]
        simp only [List.length_append, List.length_cons, List.length_take,
          List.length_nil]
        rw [hp]
        omega
      exact ⟨by omega, fun h => absurd h (by omega)⟩
    · rw [if_neg hover] at hf
      have hfe : f = header ++ 58 :: payload := (Option.some.inj hf).symm
      constructor
      · rw [hfe, hmsglen]; omega
      · intro _; exact hfe

set_option maxRecDepth 8000 in
/-- Concrete instance: realistic field values and a 200-byte payload give a
frame of at most 250 bytes that carries the whole payload. -/
theorem sendChunk_frame_bounded_witness :
    (∀ v ∈ [0, 0, 1, 123456, 16000, 16, 128, 128], v < 4294967296) ∧
    (List.replicate 200 7).length = 200 ∧
    buildChunkFrame (chunkHeader 0 0 1 123456 16000 16 128 128) (List.replicate 200 7) =
      some (chunkHeader 0 0 1 123456 16000 16 128 128 ++
        58 :: (List.replicate 200 7).take
          (min 200 (249 - (chunkHeader 0 0 1 123456 16000 16 128 128).length))) :=
  ⟨by decide, by decide,
   (sendChunk_frame_bounded 0 0 1 123456 16000 16 128 128 (by decide)
     (List.replicate 200 7) (by decide)).1⟩

/-! ## AudioAccumulator: the Hub's 1024-byte audio buffer

`audioBuffer` (1024 bytes) with write cursor `audioBufferIndex`.
`addAudioData` appends, with a forced `sendAudioChunks` flush and an
oldest-bytes eviction when the buffer would overflow; `sendAudioChunks`
emits whole 200-byte chunks and compacts the remainder to the front,
zeroing the rest.  Only the buffer/cursor effects are modelled here; the
radio sends themselves are external. -/

/-- The accumulator state: the 1024-byte buffer and the write cursor. -/
structure HubAudioState where
  buf : List Nat
  cursor : Nat
  deriving DecidableEq

/-- Buffer/cursor effect of `sendAudioChunks`.  `devicesPresent` is
`meshDeviceCount > 0 || deviceConnected`: when false, the function clears
the whole buffer and returns early; otherwise it emits
`cursor / 200` whole chunks, moves the `cursor % 200` remainder bytes to
the front (`memmove`), and zeroes the rest of the buffer (`memset`). -/
def sendAudioChunksBuf (devicesPresent : Bool) (s : HubAudioState) : HubAudioState :=
  if devicesPresent = false then { buf := List.replicate 1024 0, cursor := 0 }
  else
    let chunksToSend := s.cursor / 200
    let remainingData := s.cursor % 200
    if 0 < remainingData then
      { buf := (s.buf.drop (chunksToSend * 200)).take remainingData ++
               List.replicate (1024 - remainingData) 0,
        cursor := remainingData }
    else { buf := List.replicate 1024 0, cursor := 0 }

/-- Buffer/cursor effect of `stopAudioStream`: when streaming, the whole
buffer is `memset` to zero and the cursor reset. -/
def stopAudioStreamBuf (streaming : Bool) (s : HubAudioState) : HubAudioState :=
  if streaming then { buf := List.replicate 1024 0, cursor := 0 } else s

/-- A `memcpy` of `data` into `buf` at offset `pos`. -/
def memWrite (buf : List Nat) (pos : Nat) (data : List Nat) : List Nat :=
  buf.take pos ++ data ++ buf.drop (pos + data.length)

/-- The forced-flush step of `addAudioData`: when the incoming bytes would
overflow the buffer and at least one whole chunk is buffered, run
`sendAudioChunks` first to make space. -/
def flushStage (devicesPresent : Bool) (s : HubAudioState) (len : Nat) : HubAudioState :=
  if 1024 < s.cursor + len then
    if 200 ≤ s.cursor then sendAudioChunksBuf devicesPresent s else s
  else s

/-- The eviction step of `addAudioData`: if space is still insufficient,
drop the oldest `overflow = (cursor + len) - 1024` bytes by a left-shift
`memmove` (bytes past the cursor are untouched) and pull the cursor back. -/
def evictStage (s : HubAudioState) (len : Nat) : HubAudioState :=
  if 1024 < s.cursor + len then
    let overflow := s.cursor + len - 1024
    { buf := (s.buf.drop overflow).take (s.cursor - overflow) ++
             s.buf.drop (s.cursor - overflow),
      cursor := s.cursor - overflow }
  else s

/-- The append portion of `addAudioData` (guard, forced flush, eviction,
then the `memcpy` of the new bytes and the cursor advance), before the
trailing chunk emission. -/
def addAudioAppend (devicesPresent : Bool) (s : HubAudioState) (data : List Nat) :
    HubAudioState :=
  if data.length = 0 then s
  else
    let s2 := evictStage (flushStage devicesPresent s data.length) data.length
    { buf := memWrite s2.buf s2.cursor data, cursor := s2.cursor + data.length }

/-- Full `addAudioData` (while streaming): the append, then
`sendAudioChunks` whenever at least one whole chunk is buffered. -/
def addAudioData (devicesPresent : Bool) (s : HubAudioState) (data : List Nat) :
    HubAudioState :=
  let s3 := addAudioAppend devicesPresent s data
  if 200 ≤ s3.cursor then sendAudioChunksBuf devicesPresent s3 else s3

lemma sendAudioChunksBuf_inv (devicesPresent : Bool) (s : HubAudioState)
    (hbuf : s.buf.length = 1024) (hcur : s.cursor ≤ 1024) :
    (sendAudioChunksBuf devicesPresent s).buf.length = 1024 ∧
    (sendAudioChunksBuf devicesPresent s).cursor ≤ 1024 := by
  unfold sendAudioChunksBuf
  by_cases hd : devicesPresent = false
  · rw [if_pos hd]
    exact ⟨List.length_replicate 1024 0, Nat.zero_le 1024⟩
  · rw [if_neg hd]
    dsimp only
    by_cases hr : 0 < s.cursor % 200
    · rw [if_pos hr]
      have hmod : s.cursor % 200 < 200 := Nat.mod_lt _ (by norm_num)
      have hdm : 200 * (s.cursor / 200) + s.cursor % 200 = s.cursor :=
        Nat.div_add_mod s.cursor 200
      constructor
      · dsimp only
        rw [List.length_append, List.length_take, List.length_drop,
          List.length_replicate, hbuf]
        omega
      · dsimp only
        omega
    · rw [if_neg hr]
      exact ⟨List.length_replicate 1024 0, Nat.zero_le 1024⟩

lemma flushStage_inv (devicesPresent : Bool) (s : HubAudioState) (len : Nat)
    (hbuf : s.buf.length = 1024) (hcur : s.cursor ≤ 1024) :
    (flushStage devicesPresent s len).buf.length = 1024 ∧
    (flushStage devicesPresent s len).cursor ≤ 1024 := by
  unfold flushStage
  by_cases h1 : 1024 < s.cursor + len
  · rw [if_pos h1]
    by_cases h2 : 200 ≤ s.cursor
    · rw [if_pos h2]
      exact sendAudioChunksBuf_inv devicesPresent s hbuf hcur
    · rw [if_neg h2]; exact ⟨hbuf, hcur⟩
  · rw [if_neg h1]; exact ⟨hbuf, hcur⟩

set_option maxRecDepth 20000 in
/-- The claim (and the spec sentence it comes from) states that the
overflow-eviction append ends with `cursor = len`; in the code the cursor
ends at the full capacity 1024 instead.  Concrete run: buffer full at
cursor 900, appending 1000 bytes; the forced flush leaves cursor 100, the
eviction drops 76 bytes, and the append ends with cursor 1024, not 1000. -/
theorem evictAppend_counterexample :
    1024 < (flushStage true ⟨List.replicate 1024 7, 900⟩ 1000).cursor + 1000 ∧
    (addAudioAppend true ⟨List.replicate 1024 7, 900⟩ (List.replicate 1000 5)).cursor = 1024 ∧
    (addAudioAppend true ⟨List.replicate 1024 7, 900⟩ (List.replicate 1000 5)).cursor ≠ 1000 := by
  refine ⟨by decide, by decide, by decide⟩

/-- Amended C4: for every append of `len` bytes (0 < len ≤ 1024) into a
well-formed accumulator state for which the forced chunk flush does not
free enough space (the post-flush cursor still overflows), the eviction
drops the oldest `overflow` bytes, the append completes, the final cursor
equals the buffer capacity 1024 (not `len`), and the buffer's tail `len`
bytes equal exactly the newly appended bytes (the oldest audio was
discarded, never the newest). -/
theorem evictAppend_amended (devicesPresent : Bool) (s : HubAudioState) (data : List Nat)
    (hbuf : s.buf.length = 1024) (hcur : s.cursor ≤ 1024)
    (hlen : 0 < data.length) (hlen2 : data.length ≤ 1024)
    (hover : 1024 < (flushStage devicesPresent s data.length).cursor + data.length) :
    (addAudioAppend devicesPresent s data).cursor = 1024 ∧
    (addAudioAppend devicesPresent s data).buf.drop (1024 - data.length) = data ∧
    (addAudioAppend devicesPresent s data).buf.length = 1024 := by
  have hinv := flushStage_inv devicesPresent s data.length hbuf hcur
  set s1 := flushStage devicesPresent s data.length with hs1
  obtain ⟨hbuf1, hcur1⟩ := hinv
  have hdne : ¬ (data.length = 0) := by omega
  unfold addAudioAppend
  rw [if_neg hdne]
  dsimp only
  rw [← hs1]
  have hevict : evictStage s1 data.length =
      { buf := (s1.buf.drop (s1.cursor + data.length - 1024)).take (1024 - data.length) ++
               s1.buf.drop (1024 - data.length),
        cursor := 1024 - data.length } := by
    unfold evictStage
    rw [if_pos hover]
    dsimp only
    have h1 : s1.cursor - (s1.cursor + data.length - 1024) = 1024 - data.length := by omega
    rw [h1]
  rw [hevict]
  dsimp only
  set B := (s1.buf.drop (s1.cursor + data.length - 1024)).take (1024 - data.length) ++
      s1.buf.drop (1024 - data.length) with hB
  have hblen : B.length = 1024 := by
    rw [hB]
    simp only [List.length_append, List.length_take, List.length_drop, hbuf1]
    omega
  have hcursor : 1024 - data.length + data.length = 1024 := by omega
  refine ⟨hcursor, ?_, ?_⟩
  · unfold memWrite
    have hdrop : B.drop (1024 - data.length + data.length) = [] := by
      apply List.drop_eq_nil_of_le
      rw [hblen]
      omega
    rw [hdrop, List.append_nil]
    have hpre : (B.take (1024 - data.length)).length = 1024 - data.length := by
      rw [List.length_take, hblen]
      omega
    nth_rewrite 1 [← hpre]
    exact List.drop_left _ _
  · unfold memWrite
    rw [List.length_append, List.length_append, List.length_take, List.length_drop, hblen]
    omega

set_option maxRecDepth 20000 in
/-- Concrete instantiation of the amended eviction theorem: buffer full of
7s at cursor 900, appending 1000 bytes of 5s ends at cursor 1024 with the
tail 1000 bytes equal to the appended data. -/
theorem evictAppend_amended_witness :
    ((List.replicate 1024 7).length = 1024 ∧ (900 : Nat) ≤ 1024 ∧
     0 < (List.replicate 1000 5).length ∧ (List.replicate 1000 5).length ≤ 1024 ∧
     1024 < (flushStage true ⟨List.replicate 1024 7, 900⟩ (List.replicate 1000 5).length).cursor +
       (List.replicate 1000 5).length) ∧
    ((addAudioAppend true ⟨List.replicate 1024 7, 900⟩ (List.replicate 1000 5)).cursor = 1024 ∧
     (addAudioAppend true ⟨List.replicate 1024 7, 900⟩
        (List.replicate 1000 5)).buf.drop (1024 - (List.replicate 1000 5).length) =
        List.replicate 1000 5) :=
  ⟨⟨by decide, by decide, by decide, by decide, by decide⟩,
   (evictAppend_amended true ⟨List.replicate 1024 7, 900⟩ (List.replicate 1000 5)
      (by decide) (by decide) (by decide) (by decide) (by decide)).1,
   (evictAppend_amended true ⟨List.replicate 1024 7, 900⟩ (List.replicate 1000 5)
      (by decide) (by decide) (by decide) (by decide) (by decide)).2.1⟩

/-! ## Where buffered accumulator bytes are cleared (C9) -/

set_option maxRecDepth 20000 in
/-- The post-emission compaction in `sendAudioChunks` is not the only point
that clears previously buffered bytes: `stopAudioStream` zeroes the whole
buffer and resets the cursor while 100 buffered bytes (none of them yet
emitted) are still pending, as does `sendAudioChunks`' early-clear path
when no mesh device and no BLE central is connected. -/
theorem bufferClear_counterexample :
    (stopAudioStreamBuf true ⟨List.replicate 1024 7, 100⟩).buf = List.replicate 1024 0 ∧
    (stopAudioStreamBuf true ⟨List.replicate 1024 7, 100⟩).cursor = 0 ∧
    (sendAudioChunksBuf false ⟨List.replicate 1024 7, 100⟩).buf = List.replicate 1024 0 ∧
    (sendAudioChunksBuf false ⟨List.replicate 1024 7, 100⟩).cursor = 0 ∧
    List.replicate 1024 (7 : Nat) ≠ List.replicate 1024 0 := by
  refine ⟨by decide, by decide, by decide, by decide, by decide⟩

/-- Amended C9: after emission with a connected peer or central,
`sendAudioChunks` moves the partial remainder chunk to the front of the
buffer and zeroes the rest — but this is not the only point where buffered
bytes are cleared: the early-clear path of `sendAudioChunks` (no mesh
device and no BLE central) and `stopAudioStream` zero the whole buffer as
well (and `addAudioData`'s eviction discards the oldest bytes, see the C4
theorems). -/
theorem bufferClear_amended (s : HubAudioState) :
    (sendAudioChunksBuf true s).buf =
      (s.buf.drop (s.cursor / 200 * 200)).take (s.cursor % 200) ++
      List.replicate (1024 - s.cursor % 200) 0 ∧
    (sendAudioChunksBuf true s).cursor = s.cursor % 200 ∧
    (sendAudioChunksBuf false s).buf = List.replicate 1024 0 ∧
    (sendAudioChunksBuf false s).cursor = 0 ∧
    (stopAudioStreamBuf true s).buf = List.replicate 1024 0 ∧
    (stopAudioStreamBuf true s).cursor = 0 := by
  have htrue : ¬ (true = false) := by decide
  refine ⟨?_, ?_, ?_, ?_, ?_, ?_⟩
  · unfold sendAudioChunksBuf
    rw [if_neg htrue]
    dsimp only
    by_cases hr : 0 < s.cursor % 200
    · rw [if_pos hr]
    · have hz : s.cursor % 200 = 0 := by omega
      rw [if_neg hr]
      dsimp only
      rw [hz, List.take_zero, List.nil_append, Nat.sub_zero]
  · unfold sendAudioChunksBuf
    rw [if_neg htrue]
    dsimp only
    by_cases hr : 0 < s.cursor % 200
    · rw [if_pos hr]
    · have hz : s.cursor % 200 = 0 := by omega
      rw [if_neg hr]
      dsimp only
      omega
  · unfold sendAudioChunksBuf
    rw [if_pos rfl]
  · unfold sendAudioChunksBuf
    rw [if_pos rfl]
  · unfold stopAudioStreamBuf
    rw [if_pos rfl]
  · unfold stopAudioStreamBuf
    rw [if_pos rfl]

/-! ## Legacy 8-bit upsampling and the Relay's coalescer ingest

In `bleNotifyTask` (and the loop-based flush), a `Legacy8`-tagged item is
upsampled per sample with `int16_t s16 = ((int)s8 - 128) << 8;` and stored
as two bytes `s16 & 0xFF` and `(s16 >> 8) & 0xFF`.  `(x << 8)` on the
in-range value is multiplication by 256; the byte extractions are the
Euclidean `mod`/`div` by 256 of the 16-bit two's-complement pattern. -/

/-- The `int16_t` value `((int)s8 - 128) << 8` computed by the conversion
loop. -/
def legacyUpsample16 (s8 : Nat) : Int :=
  ((s8 : Int) - 128) * 256

/-- The low byte `s16 & 0xFF` stored into `pcm16`. -/
def upsampleLoByte (s8 : Nat) : Nat :=
  ((legacyUpsample16 s8).emod 256).toNat

/-- The high byte `(s16 >> 8) & 0xFF` stored into `pcm16`. -/
def upsampleHiByte (s8 : Nat) : Nat :=
  (((legacyUpsample16 s8).ediv 256).emod 256).toNat

/-- Reading a little-endian byte pair back as a signed 16-bit sample
(two's complement). -/
def int16OfBytes (lo hi : Nat) : Int :=
  let u := lo + 256 * hi
  if u < 32768 then (u : Int) else (u : Int) - 65536

set_option maxRecDepth 20000 in
/-- C5: for every input sample byte `s8`, the byte pair the coalescer
emits decodes to the 16-bit sample `(s8 - 128) * 256` (`(s8 - 128) << 8`).
In particular byte 0 maps to -32768, byte 128 to 0 and byte 255 to 32512
(see the witness). -/
theorem legacyUpsample_correct :
    ∀ s8 : Nat, s8 < 256 →
    int16OfBytes (upsampleLoByte s8) (upsampleHiByte s8) = ((s8 : Int) - 128) * 256 := by
  decide

/-- The three sample points named by the spec: 0 → -32768, 128 → 0,
255 → 32512. -/
theorem legacyUpsample_correct_witness :
    int16OfBytes (upsampleLoByte 0) (upsampleHiByte 0) = -32768 ∧
    int16OfBytes (upsampleLoByte 128) (upsampleHiByte 128) = 0 ∧
    int16OfBytes (upsampleLoByte 255) (upsampleHiByte 255) = 32512 :=
  ⟨(legacyUpsample_correct 0 (by decide)).trans (by decide),
   (legacyUpsample_correct 128 (by decide)).trans (by decide),
   (legacyUpsample_correct 255 (by decide)).trans (by decide)⟩

/-- The per-sample byte-pair expansion of a `Legacy8` payload, capped at
256 samples by the 512-byte `pcm16` scratch buffer
(`outLen + 2 <= sizeof(pcm16)`). -/
def upsamplePcm8 (data : List Nat) : List Nat :=
  (data.take 256).foldr (fun s8 acc => upsampleLoByte s8 :: upsampleHiByte s8 :: acc) []

/-- Ingest of one popped item in the dedicated `bleNotifyTask` flush
(1536-byte coalescing buffer): `Legacy8` payloads are upsampled, raw
16-bit payloads are appended unchanged, both truncated to the remaining
buffer space. -/
def taskIngestItem (buf : List Nat) (it : NotifyItem) : List Nat :=
  if it.isPcm8 then buf ++ (upsamplePcm8 it.data).take (1536 - buf.length)
  else buf ++ it.data.take (1536 - buf.length)

/-- Ingest of one popped item in the loop-based flush of the Relay's
`loop()` (4096-byte coalescing buffer): `Legacy8` payloads are upsampled,
but a non-`Legacy8` item's payload is replaced by 240 bytes of `0x80`
silence ("fallback silence for unexpected compressed payloads"). -/
def loopIngestItem (buf : List Nat) (it : NotifyItem) : List Nat :=
  if it.isPcm8 then buf ++ (upsamplePcm8 it.data).take (4096 - buf.length)
  else buf ++ (List.replicate 240 128).take (4096 - buf.length)

set_option maxRecDepth 20000 in
/-- The claim fails on the loop-based flush path: a raw (non-`Legacy8`)
item's payload is not appended unchanged there — it is replaced by 240
bytes of `0x80` silence. -/
theorem rawAppend_counterexample :
    loopIngestItem [] ⟨[1, 2, 3, 4], false⟩ = List.replicate 240 128 ∧
    loopIngestItem [] ⟨[1, 2, 3, 4], false⟩ ≠ [] ++ [1, 2, 3, 4] := by
  refine ⟨by decide, by decide⟩

/-- Amended C8: in the dedicated `bleNotifyTask` flush path, every popped
item that is not tagged `Legacy8` has its payload bytes appended to the
coalescing buffer unchanged (whenever the item fits the remaining buffer
space); the loop-based flush path instead substitutes 240 bytes of `0x80`
silence for such items. -/
theorem rawAppend_task_amended (buf : List Nat) (it : NotifyItem)
    (hraw : it.isPcm8 = false)
    (hfit : buf.length + it.data.length ≤ 1536) :
    taskIngestItem buf it = buf ++ it.data ∧
    loopIngestItem buf it = buf ++ (List.replicate 240 128).take (4096 - buf.length) := by
  constructor
  · unfold taskIngestItem
    rw [hraw]
    rw [if_neg (by decide : ¬ (false = true))]
    have : it.data.take (1536 - buf.length) = it.data := by
      apply List.take_of_length_le
      omega
    rw [this]
  · unfold loopIngestItem
    rw [hraw]
    rw [if_neg (by decide : ¬ (false = true))]

/-- Concrete instantiation: a raw 4-byte item is appended unchanged by the
task-path ingest. -/
theorem rawAppend_task_amended_witness :
    ((⟨[9, 8, 7, 6], false⟩ : NotifyItem).isPcm8 = false ∧
     ([5, 5] : List Nat).length + ([9, 8, 7, 6] : List Nat).length ≤ 1536) ∧
    taskIngestItem [5, 5] ⟨[9, 8, 7, 6], false⟩ = [5, 5] ++ [9, 8, 7, 6] :=
  ⟨⟨by decide, by decide⟩,
   (rawAppend_task_amended [5, 5] ⟨[9, 8, 7, 6], false⟩ (by decide) (by decide)).1⟩

/-! ## PeerRegistry: the Hub's mesh device registry

`meshDevices` is a bounded array of at most `MAX_MESH_DEVICES = 4` entries,
modelled as a `List MeshDevice` (the live prefix of the array).  The
ESP-NOW side effects (`esp_now_add_peer` / `esp_now_del_peer` /
`esp_now_send`) are abstracted as boolean outcomes. -/

/-- One registry entry, mirroring the C `MeshDevice` struct. -/
structure MeshDevice where
  mac : List Nat
  deviceName : String
  deviceType : String
  lastSeen : Nat
  isActive : Bool
  isCoordinator : Bool
  audioQuality : Nat
  deriving DecidableEq

/-- The update-existing scan at the top of `addDeviceToMesh`: if a device
with the same MAC already exists, stamp its `lastSeen` (it is *not* marked
active — "Don't mark as active until ready confirmation") and report
success; `none` if no entry matches. -/
def addExisting : List MeshDevice → List Nat → Nat → Option (List MeshDevice)
  | [], _, _ => none
  | d :: rest, mac, now =>
    if d.mac = mac then some ({ d with lastSeen := now } :: rest)
    else (addExisting rest mac now).map (fun r => d :: r)

/-- Model of `addDeviceToMesh`: update an existing entry, else append a new
`Joining` entry (inactive, quality 100) when below the 4-device capacity
and the transport accepts the peer (`addPeerOk` models `esp_now_add_peer`);
report failure at capacity. -/
def addDeviceToMesh (now : Nat) (addPeerOk : Bool) (devices : List MeshDevice)
    (mac : List Nat) (name ty : String) : Bool × List MeshDevice :=
  match addExisting devices mac now with
  | some devices' => (true, devices')
  | none =>
    if devices.length < 4 then
      if addPeerOk then
        (true, devices ++ [{ mac := mac, deviceName := name, deviceType := ty,
                             lastSeen := now, isActive := false, isCoordinator := false,
                             audioQuality := 100 }])
      else (false, devices)
    else (false, devices)

/-- Model of the `mesh_join` arm of the Hub's `OnDataRecv`: run
`addDeviceToMesh` and reply `mesh_ack` with status `"joined"` on success
and `"failed"` otherwise. -/
def handleJoin (now : Nat) (addPeerOk : Bool) (devices : List MeshDevice)
    (mac : List Nat) (name ty : String) : String × List MeshDevice :=
  let r := addDeviceToMesh now addPeerOk devices mac name ty
  (if r.1 then "joined" else "failed", r.2)

/-- Model of `removeDeviceFromMesh`: scan for the first entry with the
given MAC; if found, delete it (shifting the rest down) and return `true`,
else return `false` with the registry unchanged. -/
def removeDeviceFromMesh (devices : List MeshDevice) (mac : List Nat) :
    Bool × List MeshDevice :=
  match devices with
  | [] => (false, [])
  | d :: rest =>
    if d.mac = mac then (true, rest)
    else
      let r := removeDeviceFromMesh rest mac
      (r.1, d :: r.2)

/-- The indexed removal loop shared by `cleanupInactiveDevices`,
`relayAudioToMesh`, `sendMeshHeartbeat` and `broadcastMeshStatus`: walk the
registry by index; whenever the predicate `stale` holds of the current
entry, call `removeDeviceFromMesh` with that entry's MAC and (on success)
re-examine the same index (`i--` then `i++`); otherwise advance.  `fuel`
bounds the iteration count (every step either advances `i` or shortens the
list, so `2 * length` fuel always suffices). -/
def removalSweepAux (stale : MeshDevice → Bool) :
    Nat → List MeshDevice → Nat → List MeshDevice
  | 0, devices, _ => devices
  | fuel + 1, devices, i =>
    if h : i < devices.length then
      if stale (devices.get ⟨i, h⟩) then
        let r := removeDeviceFromMesh devices (devices.get ⟨i, h⟩).mac
        if r.1 then removalSweepAux stale fuel r.2 i
        else removalSweepAux stale fuel devices (i + 1)
      else removalSweepAux stale fuel devices (i + 1)
    else devices

/-- Model of `cleanupInactiveDevices`: no-op unless the mesh is active;
otherwise remove every entry that is active and whose `lastSeen` age
exceeds `DEVICE_TIMEOUT = 30000` ms. -/
def cleanupInactiveDevices (meshNetworkActive : Bool) (now : Nat)
    (devices : List MeshDevice) : List MeshDevice :=
  if meshNetworkActive = false then devices
  else removalSweepAux (fun d => d.isActive && decide (30000 < now - d.lastSeen))
    (2 * devices.length) devices 0

/-- Model of the send-failure removal in `relayAudioToMesh` /
`sendMeshHeartbeat` / `broadcastMeshStatus`: the loops send only to
`isActive` entries, and remove an entry when the transport reports the
peer unknown/invalid (`ok` abstracts `esp_now_get_peer` + `esp_now_send`
succeeding for a MAC). -/
def sendFailureSweep (ok : List Nat → Bool) (devices : List MeshDevice) :
    List MeshDevice :=
  removalSweepAux (fun d => d.isActive && !(ok d.mac)) (2 * devices.length) devices 0

/-- The audio fan-out targets of `sendAudioChunks`: the active entries. -/
def fanoutTargets (devices : List MeshDevice) : List MeshDevice :=
  devices.filter (fun d => d.isActive)

lemma removeDeviceFromMesh_subset :
    ∀ (l : List MeshDevice) (m : List Nat) (d' : MeshDevice),
    d' ∈ (removeDeviceFromMesh l m).2 → d' ∈ l := by
  intro l
  induction l with
  | nil => intro m d' hd'; simpa [removeDeviceFromMesh] using hd'
  | cons a rest ih =>
    intro m d' hd'
    by_cases ham : a.mac = m
    · rw [show (removeDeviceFromMesh (a :: rest) m).2 = rest from by
        simp only [removeDeviceFromMesh, if_pos ham]] at hd'
      exact List.mem_cons_of_mem a hd'
    · rw [show (removeDeviceFromMesh (a :: rest) m).2 = a :: (removeDeviceFromMesh rest m).2 from by
        simp only [removeDeviceFromMesh, if_neg ham]] at hd'
      rcases List.mem_cons.mp hd' with h1 | h2
      · exact h1 ▸ List.mem_cons_self a rest
      · exact List.mem_cons_of_mem a (ih m d' h2)

lemma removeDeviceFromMesh_found :
    ∀ (l : List MeshDevice) (i : Nat) (h : i < l.length),
    (∀ j (hj : j < l.length), j < i → (l.get ⟨j, hj⟩).mac ≠ (l.get ⟨i, h⟩).mac) →
    removeDeviceFromMesh l ((l.get ⟨i, h⟩).mac) = (true, l.take i ++ l.drop (i + 1)) := by
  intro l
  induction l with
  | nil => intro i h; simp at h
  | cons d rest ih =>
    intro i h hpre
    cases i with
    | zero =>
      show removeDeviceFromMesh (d :: rest) d.mac = (true, (d :: rest).take 0 ++ (d :: rest).drop 1)
      simp only [removeDeviceFromMesh, if_pos rfl, if_true, List.take_zero, List.nil_append,
        List.drop_succ_cons, List.drop_zero]
    | succ i' =>
      have hi' : i' < rest.length := by simpa using h
      have hget : (d :: rest).get ⟨i' + 1, h⟩ = rest.get ⟨i', hi'⟩ := rfl
      have hd : ¬ (d.mac = (rest.get ⟨i', hi'⟩).mac) := by
        have := hpre 0 (by simp) (by omega)
        simpa [hget] using this
      rw [hget]
      simp only [removeDeviceFromMesh, if_neg hd]
      rw [ih i' hi' (fun j hj hlt => by
        have := hpre (j + 1) (by simpa using hj) (by omega)
        simpa using this)]
      simp [List.take_succ_cons, List.drop_succ_cons]

lemma removeDeviceFromMesh_mac_absent :
    ∀ (l : List MeshDevice) (m : List Nat),
    (l.map (fun x => x.mac)).Nodup → (∃ x ∈ l, x.mac = m) →
    ∀ d' ∈ (removeDeviceFromMesh l m).2, d'.mac ≠ m := by
  intro l
  induction l with
  | nil =>
    intro m _ hex
    rcases hex with ⟨x, hx, _⟩
    simp at hx
  | cons a rest ih =>
    intro m hnodup hex d' hd'
    by_cases ham : a.mac = m
    · rw [show (removeDeviceFromMesh (a :: rest) m).2 = rest from by
        simp only [removeDeviceFromMesh, if_pos ham]] at hd'
      have hnot : a.mac ∉ rest.map (fun x => x.mac) := by
        simp only [List.map_cons, List.nodup_cons] at hnodup
        exact hnodup.1
      intro heq
      exact hnot (by rw [ham, ← heq]; exact List.mem_map_of_mem _ hd')
    · rw [show (removeDeviceFromMesh (a :: rest) m).2 = a :: (removeDeviceFromMesh rest m).2 from by
        simp only [removeDeviceFromMesh, if_neg ham]] at hd'
      rcases List.mem_cons.mp hd' with h1 | h2
      · rw [h1]; exact ham
      · have hex' : ∃ x ∈ rest, x.mac = m := by
          rcases hex with ⟨x, hx, hxm⟩
          rcases List.mem_cons.mp hx with hxa | hxr
          · exact absurd (hxa ▸ hxm) ham
          · exact ⟨x, hxr, hxm⟩
        have hnodup' : (rest.map (fun x => x.mac)).Nodup := by
          simp only [List.map_cons, List.nodup_cons] at hnodup
          exact hnodup.2
        exact ih m hnodup' hex' d' h2

lemma mem_take_succ {α : Type} :
    ∀ (l : List α) (i : Nat) (x : α), x ∈ l.take (i + 1) →
    x ∈ l.take i ∨ ∃ h : i < l.length, x = l.get ⟨i, h⟩ := by
  intro l
  induction l with
  | nil => intro i x hx; simp at hx
  | cons a rest ih =>
    intro i x hx
    cases i with
    | zero =>
      rw [List.take_succ_cons, List.take_zero] at hx
      rcases List.mem_cons.mp hx with h1 | h2
      · exact Or.inr ⟨by simp, h1⟩
      · simp at h2
    | succ i' =>
      rw [List.take_succ_cons] at hx
      rcases List.mem_cons.mp hx with h1 | h2
      · exact Or.inl (by rw [List.take_succ_cons, h1]; exact List.mem_cons_self a _)
      · rcases ih i' x h2 with h3 | ⟨hlt, hget⟩
        · exact Or.inl (by rw [List.take_succ_cons]; exact List.mem_cons_of_mem a h3)
        · exact Or.inr ⟨by simpa using hlt, hget⟩

lemma removalSweepAux_subset (stale : MeshDevice → Bool) :
    ∀ (fuel : Nat) (devices : List MeshDevice) (i : Nat) (d' : MeshDevice),
    d' ∈ removalSweepAux stale fuel devices i → d' ∈ devices := by
  intro fuel
  induction fuel with
  | zero => intro devices i d' hd'; simpa [removalSweepAux] using hd'
  | succ fuel ih =>
    intro devices i d' hd'
    rw [removalSweepAux] at hd'
    by_cases h : i < devices.length
    · rw [dif_pos h] at hd'
      by_cases hst : stale (devices.get ⟨i, h⟩) = true
      · rw [if_pos hst] at hd'
        dsimp only at hd'
        by_cases hr : (removeDeviceFromMesh devices (devices.get ⟨i, h⟩).mac).1 = true
        · rw [if_pos hr] at hd'
          exact removeDeviceFromMesh_subset _ _ _ (ih _ _ _ hd')
        · rw [if_neg hr] at hd'
          exact ih _ _ _ hd'
      · rw [if_neg hst] at hd'
        exact ih _ _ _ hd'
    · rw [dif_neg h] at hd'
      exact hd'

lemma removalSweepAux_context (stale : MeshDevice → Bool) (devices : List MeshDevice)
    (i : Nat) (h : i < devices.length)
    (hnodup : (devices.map (fun x => x.mac)).Nodup) :
    (∀ j (hj : j < devices.length), j < i →
      (devices.get ⟨j, hj⟩).mac ≠ (devices.get ⟨i, h⟩).mac) ∧
    ((devices.take i ++ devices.drop (i + 1)).length = devices.length - 1) ∧
    ((devices.take i ++ devices.drop (i + 1)).map (fun x => x.mac)).Nodup := by
  have hbase : devices.Nodup := List.Nodup.of_map _ hnodup
  refine ⟨?_, ?_, ?_⟩
  · intro j hj hlt heq
    have heqd : devices.get ⟨j, hj⟩ = devices.get ⟨i, h⟩ :=
      List.inj_on_of_nodup_map hnodup (List.get_mem _ _ _) (List.get_mem _ _ _) heq
    have := (List.Nodup.get_inj_iff hbase).mp heqd
    have : j = i := congrArg Fin.val this
    omega
  · rw [List.length_append, List.length_take, List.length_drop]
    omega
  · have hdropsub : List.Sublist (devices.drop (i + 1)) (devices.drop i) := by
      rw [List.drop_eq_getElem_cons h]
      exact List.sublist_cons_self _ _
    have hsub : List.Sublist (devices.take i ++ devices.drop (i + 1)) devices := by
      have h2 := List.Sublist.append_left hdropsub (devices.take i)
      rwa [List.take_append_drop] at h2
    exact List.Nodup.sublist (List.Sublist.map _ hsub) hnodup

lemma removalSweepAux_survivors (stale : MeshDevice → Bool) :
    ∀ (fuel : Nat) (devices : List MeshDevice) (i : Nat),
    2 * devices.length ≤ fuel + i →
    (devices.map (fun x => x.mac)).Nodup →
    ∀ d' ∈ removalSweepAux stale fuel devices i,
      stale d' = false ∨ d' ∈ devices.take i := by
  intro fuel
  induction fuel with
  | zero =>
    intro devices i hside _ d' hd'
    right
    rw [List.take_of_length_le (by omega)]
    simpa [removalSweepAux] using hd'
  | succ fuel ih =>
    intro devices i hside hnodup d' hd'
    rw [removalSweepAux] at hd'
    by_cases h : i < devices.length
    · rw [dif_pos h] at hd'
      by_cases hst : stale (devices.get ⟨i, h⟩) = true
      · rw [if_pos hst] at hd'
        obtain ⟨hpre, hlen2, hnodup2⟩ := removalSweepAux_context stale devices i h hnodup
        have hrm := removeDeviceFromMesh_found devices i h hpre
        dsimp only at hd'
        rw [hrm] at hd'
        rw [if_pos rfl] at hd'
        have := ih (devices.take i ++ devices.drop (i + 1)) i (by omega) hnodup2 d' hd'
        rcases this with hclean | hmem
        · exact Or.inl hclean
        · right
          have hlt : (devices.take i).length = i := by
            rw [List.length_take]; omega
          have htakeq : (devices.take i ++ devices.drop (i + 1)).take i = devices.take i := by
            nth_rewrite 1 [← hlt]
            exact List.take_left _ _
          rwa [htakeq] at hmem
      · rw [if_neg hst] at hd'
        have := ih devices (i + 1) (by omega) hnodup d' hd'
        rcases this with hclean | hmem
        · exact Or.inl hclean
        · rcases mem_take_succ devices i d' hmem with h1 | ⟨hlt, hget⟩
          · exact Or.inr h1
          · left
            rw [hget]
            exact Bool.eq_false_iff.mpr hst
    · rw [dif_neg h] at hd'
      right
      rw [List.take_of_length_le (by omega)]
      exact hd'

lemma removalSweepAux_keeps (stale : MeshDevice → Bool) :
    ∀ (fuel : Nat) (devices : List MeshDevice) (i : Nat),
    2 * devices.length ≤ fuel + i →
    (devices.map (fun x => x.mac)).Nodup →
    ∀ d ∈ devices, stale d = false →
    d ∈ removalSweepAux stale fuel devices i := by
  intro fuel
  induction fuel with
  | zero =>
    intro devices i _ _ d hd _
    simpa [removalSweepAux] using hd
  | succ fuel ih =>
    intro devices i hside hnodup d hd hclean
    rw [removalSweepAux]
    by_cases h : i < devices.length
    · rw [dif_pos h]
      by_cases hst : stale (devices.get ⟨i, h⟩) = true
      · rw [if_pos hst]
        obtain ⟨hpre, hlen2, hnodup2⟩ := removalSweepAux_context stale devices i h hnodup
        have hrm := removeDeviceFromMesh_found devices i h hpre
        dsimp only
        rw [hrm]
        rw [if_pos rfl]
        have hne : d ≠ devices.get ⟨i, h⟩ := by
          intro heq
          rw [← heq, hclean] at hst
          exact absurd hst (by decide)
        have hdX : d ∈ devices.take i ++ devices.drop (i + 1) := by
          have hsplit := List.take_append_drop i devices
          rw [← hsplit] at hd
          rcases List.mem_append.mp hd with h1 | h2
          · exact List.mem_append.mpr (Or.inl h1)
          · rw [List.drop_eq_getElem_cons h] at h2
            rcases List.mem_cons.mp h2 with h3 | h4
            · exact absurd h3 hne
            · exact List.mem_append.mpr (Or.inr h4)
        exact ih (devices.take i ++ devices.drop (i + 1)) i (by omega) hnodup2 d hdX hclean
      · rw [if_neg hst]
        exact ih devices (i + 1) (by omega) hnodup d hd hclean
    · rw [dif_neg h]
      exact hd

/-! ## C6 (join at capacity), C7 (timeout sweep), C10 (inactive peers) -/

/-- A concrete registry holding its full capacity of 4 peers. -/
def fourDevices : List MeshDevice :=
  [{ mac := [1], deviceName := "dev1", deviceType := "client", lastSeen := 10,
     isActive := true, isCoordinator := false, audioQuality := 100 },
   { mac := [2], deviceName := "dev2", deviceType := "client", lastSeen := 11,
     isActive := true, isCoordinator := false, audioQuality := 100 },
   { mac := [3], deviceName := "dev3", deviceType := "client", lastSeen := 12,
     isActive := false, isCoordinator := false, audioQuality := 100 },
   { mac := [4], deviceName := "dev4", deviceType := "client", lastSeen := 13,
     isActive := true, isCoordinator := false, audioQuality := 100 }]

/-- The claim fails for a join from a MAC that is already registered: with
the registry at its capacity of 4, `addDeviceToMesh` takes the
update-existing path, so the Hub acks `"joined"` (not `"failed"`) and the
registry contents change (that entry's `lastSeen` is stamped). -/
theorem joinAtCapacity_counterexample :
    fourDevices.length = 4 ∧
    (handleJoin 99 true fourDevices [1] "dev1" "client").1 = "joined" ∧
    (handleJoin 99 true fourDevices [1] "dev1" "client").1 ≠ "failed" ∧
    (handleJoin 99 true fourDevices [1] "dev1" "client").2 ≠ fourDevices := by
  refine ⟨by decide, by decide, by decide, by decide⟩

/-- Amended C6: for every join control message from a device *not already
in the registry* received while the registry holds its capacity of 4
peers, the Hub replies ack(status=`"failed"`) and creates no peer — the
registry is returned exactly unchanged.  (A join from an
already-registered MAC is instead acked `"joined"` and only refreshes that
entry's `lastSeen`.) -/
theorem joinAtCapacity_amended (now : Nat) (addPeerOk : Bool)
    (devices : List MeshDevice) (mac : List Nat) (name ty : String)
    (hfull : devices.length = 4) (hnew : ∀ x ∈ devices, x.mac ≠ mac) :
    handleJoin now addPeerOk devices mac name ty = ("failed", devices) := by
  have hnone : addExisting devices mac now = none := by
    clear hfull
    induction devices with
    | nil => rfl
    | cons a rest ih =>
      simp only [addExisting]
      rw [if_neg (hnew a (List.mem_cons_self a rest))]
      rw [ih (fun x hx => hnew x (List.mem_cons_of_mem a hx))]
      rfl
  unfold handleJoin addDeviceToMesh
  rw [hnone]
  dsimp only
  rw [if_neg (show ¬ (devices.length < 4) by omega)]
  rfl

/-- Concrete instantiation: a join from the unknown MAC `[9]` at capacity
is acked `"failed"` and the registry is unchanged. -/
theorem joinAtCapacity_amended_witness :
    (fourDevices.length = 4 ∧ ∀ x ∈ fourDevices, x.mac ≠ [9]) ∧
    handleJoin 99 true fourDevices [9] "dev9" "client" = ("failed", fourDevices) :=
  ⟨⟨by decide, by decide⟩,
   joinAtCapacity_amended 99 true fourDevices [9] "dev9" "client" (by decide) (by decide)⟩

/-- C7: whenever the periodic sweep runs (mesh active) over a registry with
pairwise-distinct MACs, every peer that is `Active` and whose `lastSeen`
age exceeds the 30000 ms timeout is removed: no entry with its MAC remains
in the registry, and none appears among the audio fan-out targets computed
from the post-sweep registry. -/
theorem timeoutSweep_removes_stale (now : Nat) (devices : List MeshDevice)
    (d : MeshDevice) (hnodup : (devices.map (fun x => x.mac)).Nodup)
    (hmem : d ∈ devices) (hactive : d.isActive = true)
    (hstale : 30000 < now - d.lastSeen) :
    (∀ d' ∈ cleanupInactiveDevices true now devices, d'.mac ≠ d.mac) ∧
    (∀ d' ∈ fanoutTargets (cleanupInactiveDevices true now devices), d'.mac ≠ d.mac) := by
  have hrw : cleanupInactiveDevices true now devices =
      removalSweepAux (fun x => x.isActive && decide (30000 < now - x.lastSeen))
        (2 * devices.length) devices 0 := by
    unfold cleanupInactiveDevices
    rw [if_neg (by decide : ¬ (true = false))]
  have hmain : ∀ d' ∈ cleanupInactiveDevices true now devices, d'.mac ≠ d.mac := by
    intro d' hd' heq
    rw [hrw] at hd'
    have hsurv := removalSweepAux_survivors _ (2 * devices.length) devices 0
      (by omega) hnodup d' hd'
    rcases hsurv with hclean | hmem0
    · have hd'dev : d' ∈ devices := removalSweepAux_subset _ _ _ _ _ hd'
      have heqd : d' = d := List.inj_on_of_nodup_map hnodup hd'dev hmem heq
      rw [heqd] at hclean
      simp [hactive, hstale] at hclean
    · simp at hmem0
  refine ⟨hmain, fun d' hd' => hmain d' ?_⟩
  exact (List.mem_filter.mp hd').1

/-- An active peer that has been silent since time 0. -/
def staleDevice : MeshDevice :=
  { mac := [1], deviceName := "dev1", deviceType := "client", lastSeen := 0,
    isActive := true, isCoordinator := false, audioQuality := 100 }

/-- A registry holding the stale peer and a recently-seen active peer. -/
def staleRegistry : List MeshDevice :=
  [staleDevice,
   { mac := [2], deviceName := "dev2", deviceType := "client", lastSeen := 39000,
     isActive := true, isCoordinator := false, audioQuality := 100 }]

/-- Concrete instantiation: with two active peers and `now = 40000`, the
peer last seen at time 0 (31000+ ms ago) is swept, and its MAC is absent
from the post-sweep registry. -/
theorem timeoutSweep_removes_stale_witness :
    (((staleRegistry.map (fun x => x.mac)).Nodup ∧
      staleDevice ∈ staleRegistry ∧ staleDevice.isActive = true ∧
      30000 < 40000 - staleDevice.lastSeen)) ∧
    (∀ d' ∈ cleanupInactiveDevices true 40000 staleRegistry, d'.mac ≠ staleDevice.mac) :=
  ⟨⟨by decide, by decide, by decide, by decide⟩,
   (timeoutSweep_removes_stale 40000 staleRegistry staleDevice
      (by decide) (by decide) (by decide) (by decide)).1⟩

/-- C10: a peer that joined but never sent `ready` (`isActive = false`) is
never removed by the timeout sweep, however old its `lastSeen` is — the
sweep's removal condition requires `isActive` — and the send-failure
removal loops only target active peers, so they keep it too; only an
explicit leave (`removeDeviceFromMesh` with its MAC) removes it. -/
theorem inactivePeer_not_swept (now : Nat) (devices : List MeshDevice)
    (d : MeshDevice) (ok : List Nat → Bool)
    (hnodup : (devices.map (fun x => x.mac)).Nodup)
    (hmem : d ∈ devices) (hinactive : d.isActive = false) :
    d ∈ cleanupInactiveDevices true now devices ∧
    d ∈ sendFailureSweep ok devices ∧
    (∀ d' ∈ (removeDeviceFromMesh devices d.mac).2, d'.mac ≠ d.mac) := by
  refine ⟨?_, ?_, ?_⟩
  · unfold cleanupInactiveDevices
    rw [if_neg (by decide : ¬ (true = false))]
    exact removalSweepAux_keeps _ (2 * devices.length) devices 0 (by omega) hnodup d hmem
      (by simp [hinactive])
  · unfold sendFailureSweep
    exact removalSweepAux_keeps _ (2 * devices.length) devices 0 (by omega) hnodup d hmem
      (by simp [hinactive])
  · exact removeDeviceFromMesh_mac_absent devices d.mac hnodup ⟨d, hmem, rfl⟩

/-- A peer created by a join that never sent `ready`, silent since time 0. -/
def joiningDevice : MeshDevice :=
  { mac := [7], deviceName := "dev7", deviceType := "client", lastSeen := 0,
    isActive := false, isCoordinator := false, audioQuality := 100 }

/-- Concrete instantiation: the never-ready peer, silent for 10 minutes, is
kept by the timeout sweep and by a send-failure sweep in which every send
fails. -/
theorem inactivePeer_not_swept_witness :
    (([joiningDevice].map (fun x => x.mac)).Nodup ∧
     joiningDevice ∈ [joiningDevice] ∧ joiningDevice.isActive = false) ∧
    (joiningDevice ∈ cleanupInactiveDevices true 600000 [joiningDevice] ∧
     joiningDevice ∈ sendFailureSweep (fun _ => false) [joiningDevice]) :=
  ⟨⟨by decide, by decide, by decide⟩,
   (inactivePeer_not_swept 600000 [joiningDevice] joiningDevice (fun _ => false)
      (by decide) (by decide) (by decide)).1,
   (inactivePeer_not_swept 600000 [joiningDevice] joiningDevice (fun _ => false)
      (by decide) (by decide) (by decide)).2.1⟩

end WifiMesh
